import Mathlib

/-
Verification of the SSV staking APR service core (delta-based APR variant).

The embedding models JavaScript numbers as exact rationals extended with
NaN and signed infinities: IEEE-754 rounding and overflow are elided, the
special-value propagation rules (NaN poisoning, division by zero producing
infinities, comparisons returning false on NaN) are kept.  BigInt values
are modelled as unbounded integers, exactly as in the source.  Strings are
processed by structural-recursion helpers mirroring the regular expressions
and string operations of the source.
-/

namespace SsvApr

/-- Model of a JavaScript number: an exact rational, NaN, or a signed
infinity.  Rounding and overflow of IEEE doubles are elided; the
special-value algebra is preserved. -/
inductive JsNum where
  | num (q : ℚ)
  | nan
  | posInf
  | negInf
deriving DecidableEq, Repr

namespace JsNum

/-- Number.isFinite: true exactly on ordinary numbers. -/
def isFinite : JsNum → Bool
  | num _ => true
  | _ => false

/-- JavaScript multiplication on the extended numbers. -/
def mul : JsNum → JsNum → JsNum
  | nan, _ => nan
  | _, nan => nan
  | num a, num b => num (a * b)
  | num a, posInf => if 0 < a then posInf else if a < 0 then negInf else nan
  | num a, negInf => if 0 < a then negInf else if a < 0 then posInf else nan
  | posInf, num b => if 0 < b then posInf else if b < 0 then negInf else nan
  | negInf, num b => if 0 < b then negInf else if b < 0 then posInf else nan
  | posInf, posInf => posInf
  | posInf, negInf => negInf
  | negInf, posInf => negInf
  | negInf, negInf => posInf

/-- JavaScript division on the extended numbers (sign of zero elided:
a positive value divided by zero yields positive infinity). -/
def div : JsNum → JsNum → JsNum
  | nan, _ => nan
  | _, nan => nan
  | num a, num b =>
      if b ≠ 0 then num (a / b)
      else if 0 < a then posInf else if a < 0 then negInf else nan
  | num _, posInf => num 0
  | num _, negInf => num 0
  | posInf, num b => if 0 ≤ b then posInf else negInf
  | negInf, num b => if 0 ≤ b then negInf else posInf
  | posInf, posInf => nan
  | posInf, negInf => nan
  | negInf, posInf => nan
  | negInf, negInf => nan

/-- JavaScript comparison a <= b: false whenever NaN is involved. -/
def jsLe : JsNum → JsNum → Bool
  | nan, _ => false
  | _, nan => false
  | num a, num b => decide (a ≤ b)
  | num _, posInf => true
  | num _, negInf => false
  | posInf, posInf => true
  | posInf, _ => false
  | negInf, _ => true

end JsNum

/-- Decimal value of a digit string, as in BigInt("...") on digits. -/
def decDigitsToNat (cs : List Char) : ℕ :=
  cs.foldl (fun acc c => acc * 10 + (c.toNat - 48)) 0

/-- String.prototype.trim: drop whitespace from both ends. -/
def trimChars (cs : List Char) : List Char :=
  ((cs.dropWhile Char.isWhitespace).reverse.dropWhile Char.isWhitespace).reverse

/-- Split a character list at every dot, as in matching the fragments of
the regular expressions split on the "." separator. -/
def splitOnDotAux : List Char → List Char → List (List Char)
  | [], acc => [acc.reverse]
  | c :: rest, acc =>
      if c = '.' then acc.reverse :: splitOnDotAux rest []
      else splitOnDotAux rest (c :: acc)

def splitOnDot (cs : List Char) : List (List Char) :=
  splitOnDotAux cs []

/-- parseWeiFromNumeric (apr-calculation.service, delta variant): trim,
require the shape digits optionally followed by a dot and digits, return
the integral part as a big integer; the boolean records whether a nonzero
fractional part was truncated (the logged warning). Errors become none. -/
def parseWeiFromNumeric (value : String) : Option (ℕ × Bool) :=
  let trimmed := trimChars value.data
  match splitOnDot trimmed with
  | [whole] =>
      if whole ≠ [] ∧ whole.all Char.isDigit then
        some (decDigitsToNat whole, false)
      else none
  | [whole, fraction] =>
      if whole ≠ [] ∧ whole.all Char.isDigit ∧
          fraction ≠ [] ∧ fraction.all Char.isDigit then
        some (decDigitsToNat whole, fraction.any (fun c => c ≠ '0'))
      else none
  | _ => none

/-- Decimal digit list of a natural number, produced with structural fuel
(fuel n + 1 always suffices); models BigInt.prototype.toString. -/
def natToDigitsAux : ℕ → ℕ → List Char → List Char
  | 0, _, acc => acc
  | fuel + 1, n, acc =>
      let d := Char.ofNat (48 + n % 10)
      if n < 10 then d :: acc else natToDigitsAux fuel (n / 10) (d :: acc)

def natToDecString (n : ℕ) : String :=
  ⟨natToDigitsAux (n + 1) n []⟩

/-- padStart(9, zero digit) from gweiToEthString. -/
def padStartZeros (cs : List Char) (n : ℕ) : List Char :=
  List.replicate (n - cs.length) '0' ++ cs

/-- replace trailing zeros by nothing, from gweiToEthString. -/
def stripTrailingZeros (cs : List Char) : List Char :=
  (cs.reverse.dropWhile (fun c => c = '0')).reverse

/-- gweiToEthString (ec.service): validate an all-digit string, divide by
1e9 and render an exact decimal string, trimming trailing zeros of the
fractional part.  The thrown error on invalid input becomes none. -/
def gweiToEthString (value : String) : Option String :=
  let trimmed := trimChars value.data
  if trimmed ≠ [] ∧ trimmed.all Char.isDigit then
    let gwei := decDigitsToNat trimmed
    let whole := gwei / 1000000000
    let fraction := gwei % 1000000000
    if fraction = 0 then some (natToDecString whole)
    else
      some ⟨(natToDecString whole).data ++ '.' ::
        stripTrailingZeros (padStartZeros (natToDecString fraction).data 9)⟩
  else none

/-- Persisted APR sample (apr_samples row).  Timestamps are epoch
milliseconds (Date.prototype.getTime); accEthPerShare is stored as exact
decimal text; the toFixed(2) rendering of the stored percentages at the
storage boundary is elided, keeping null-ness and the numeric value. -/
structure AprSampleRec where
  timestamp : ℤ
  accEthPerShare : String
  ethPrice : JsNum
  ssvPrice : JsNum
  currentApr : Option JsNum
  aprProjected : Option JsNum
  deltaIndex : Option ℤ
  deltaTime : Option ℤ
deriving DecidableEq, Repr

def SECONDS_PER_YEAR : ℕ := 31536000

/-- Number.MAX_SAFE_INTEGER. -/
def maxSafeInteger : ℤ := 2 ^ 53 - 1

/-- Result of computeApr: the nullable APR, the persisted delta fields,
and the two observable warning conditions emitted by the logger. -/
structure ComputeAprResult where
  apr : Option JsNum
  deltaIndex : Option ℤ
  deltaTime : Option ℤ
  nonPositivePriceWarned : Bool
  precisionLossWarned : Bool
deriving DecidableEq, Repr

/-- computeApr of the delta-based AprCalculationService: guard order and
formula follow the source — non-finite prices, missing previous sample,
unparsable previous index, non-positive deltaIndex, non-positive
deltaTime each yield null; then
apr = (Number(deltaIndex) / 1e18 / deltaTime) * SECONDS_PER_YEAR
        * (priceEth / priceSsv) * 100,
with a final non-finite check.  Logger warnings for non-positive prices
and for deltaIndex exceeding MAX_SAFE_INTEGER are kept as observable
flags. -/
def computeApr (previous : Option AprSampleRec) (accEthPerShare : ℕ)
    (priceEth priceSsv : JsNum) (timestampMs : ℤ) : ComputeAprResult :=
  if ¬ (priceEth.isFinite && priceSsv.isFinite) then
    { apr := none, deltaIndex := none, deltaTime := none,
      nonPositivePriceWarned := false, precisionLossWarned := false }
  else
    let warned := priceEth.jsLe (JsNum.num 0) || priceSsv.jsLe (JsNum.num 0)
    match previous with
    | none =>
        { apr := none, deltaIndex := none, deltaTime := none,
          nonPositivePriceWarned := warned, precisionLossWarned := false }
    | some latestSample =>
        match parseWeiFromNumeric latestSample.accEthPerShare with
        | none =>
            { apr := none, deltaIndex := none, deltaTime := none,
              nonPositivePriceWarned := warned, precisionLossWarned := false }
        | some (previousIndex, _) =>
            let deltaIndex : ℤ := (accEthPerShare : ℤ) - (previousIndex : ℤ)
            if deltaIndex ≤ 0 then
              { apr := none, deltaIndex := none, deltaTime := none,
                nonPositivePriceWarned := warned, precisionLossWarned := false }
            else
              let deltaTimeSeconds : ℤ :=
                Int.fdiv (timestampMs - latestSample.timestamp) 1000
              if deltaTimeSeconds ≤ 0 then
                { apr := none, deltaIndex := none, deltaTime := none,
                  nonPositivePriceWarned := warned,
                  precisionLossWarned := false }
              else
                let priceRatio := priceEth.div priceSsv
                let precisionLoss := decide (maxSafeInteger < deltaIndex)
                let deltaIndexEth :=
                  (JsNum.num (deltaIndex : ℚ)).div (JsNum.num (10 ^ 18))
                let ratePerSecond :=
                  deltaIndexEth.div (JsNum.num (deltaTimeSeconds : ℚ))
                let apr :=
                  ((ratePerSecond.mul
                      (JsNum.num (SECONDS_PER_YEAR : ℚ))).mul
                    priceRatio).mul (JsNum.num 100)
                if ¬ apr.isFinite then
                  { apr := none, deltaIndex := none, deltaTime := none,
                    nonPositivePriceWarned := warned,
                    precisionLossWarned := precisionLoss }
                else
                  { apr := some apr, deltaIndex := some deltaIndex,
                    deltaTime := some deltaTimeSeconds,
                    nonPositivePriceWarned := warned,
                    precisionLossWarned := precisionLoss }

/-- computeAprProjected: null apr propagates; non-finite parsed balances
or non-positive validators balance yield null; otherwise
apr * (clusters / validators) with a final non-finite guard.  The
Number(string) parse of the feed values is abstracted as the JsNum
arguments. -/
def computeAprProjected (apr : Option JsNum)
    (clusters validators : JsNum) : Option JsNum :=
  match apr with
  | none => none
  | some a =>
      if ¬ (clusters.isFinite && validators.isFinite) then none
      else if validators.jsLe (JsNum.num 0) then none
      else
        let ratio := clusters.div validators
        let projected := a.mul ratio
        if ¬ projected.isFinite then none else some projected

/-- Outcome of getProjectedApr: the nullable value, and whether the
balance feed was contacted at all (it is skipped when apr is null). -/
structure ProjectedAprOutcome where
  value : Option JsNum
  balanceFetchAttempted : Bool
deriving DecidableEq, Repr

/-- getProjectedApr: skip the balance fetch entirely when apr is null;
a failed fetch is caught and downgraded to null; otherwise delegate to
computeAprProjected. -/
def getProjectedApr (apr : Option JsNum)
    (balanceFetch : Except Unit (JsNum × JsNum)) : ProjectedAprOutcome :=
  match apr with
  | none => { value := none, balanceFetchAttempted := false }
  | some a =>
      match balanceFetch with
      | .error _ => { value := none, balanceFetchAttempted := true }
      | .ok (c, v) =>
          { value := computeAprProjected (some a) c v,
            balanceFetchAttempted := true }

/-- getLatestSample: the stored sample with maximal timestamp (findOne
ordered by timestamp descending); earlier list elements win ties. -/
def getLatestSample : List AprSampleRec → Option AprSampleRec
  | [] => none
  | s :: rest =>
      match getLatestSample rest with
      | none => some s
      | some t => if s.timestamp < t.timestamp then some t else some s

/-- Repository save: the unique constraint on timestamp rejects a
duplicate, otherwise the row is appended. -/
def insertSample (store : List AprSampleRec) (s : AprSampleRec) :
    Except Unit (List AprSampleRec) :=
  if store.any (fun x => x.timestamp = s.timestamp) then .error ()
  else .ok (store ++ [s])

/-- collectAprSample: fetch index and prices (both must succeed), compute
the APR against the latest stored sample, compute the projected APR
best-effort, assemble the row and persist it.  Any failure of the index
or price fetch, or of the insert, rethrows, leaving the store unchanged;
the pair returned is (outcome, store after the cycle). -/
def collectAprSample (store : List AprSampleRec)
    (indexFetch : Except Unit ℕ)
    (priceFetch : Except Unit (JsNum × JsNum))
    (balanceFetch : Except Unit (JsNum × JsNum))
    (nowMs : ℤ) : Except Unit AprSampleRec × List AprSampleRec :=
  match indexFetch, priceFetch with
  | .ok accEthPerShare, .ok (ethPrice, ssvPrice) =>
      let aprResult :=
        computeApr (getLatestSample store) accEthPerShare ethPrice ssvPrice
          nowMs
      let projected := getProjectedApr aprResult.apr balanceFetch
      let sample : AprSampleRec :=
        { timestamp := nowMs,
          accEthPerShare := natToDecString accEthPerShare,
          ethPrice := ethPrice, ssvPrice := ssvPrice,
          currentApr := aprResult.apr,
          aprProjected := projected.value,
          deltaIndex := aprResult.deltaIndex,
          deltaTime := aprResult.deltaTime }
      match insertSample store sample with
      | .error _ => (.error (), store)
      | .ok store2 => (.ok sample, store2)
  | _, _ => (.error (), store)

/-- Response shape of getCurrentApr; lastUpdated is epoch seconds. -/
structure CurrentAprResult where
  apr : Option JsNum
  aprProjected : Option JsNum
  lastUpdated : ℤ
deriving DecidableEq, Repr

/-- getCurrentApr: fetch index and prices, compute APR against the latest
stored sample without persisting anything; fetch failures are caught and
the whole response degrades to null (none). -/
def getCurrentApr (store : List AprSampleRec)
    (indexFetch : Except Unit ℕ)
    (priceFetch : Except Unit (JsNum × JsNum))
    (balanceFetch : Except Unit (JsNum × JsNum))
    (nowMs : ℤ) : Option CurrentAprResult :=
  match indexFetch, priceFetch with
  | .ok accEthPerShare, .ok (ethPrice, ssvPrice) =>
      let aprResult :=
        computeApr (getLatestSample store) accEthPerShare ethPrice ssvPrice
          nowMs
      let projected := getProjectedApr aprResult.apr balanceFetch
      some { apr := aprResult.apr, aprProjected := projected.value,
             lastUpdated := Int.fdiv nowMs 1000 }
  | _, _ => none

/-- Insertion step of ordering samples by timestamp descending. -/
def insertDesc (s : AprSampleRec) : List AprSampleRec → List AprSampleRec
  | [] => [s]
  | t :: rest =>
      if t.timestamp ≤ s.timestamp then s :: t :: rest
      else t :: insertDesc s rest

/-- Order samples by timestamp descending (the query's orderBy). -/
def sortByTimestampDesc : List AprSampleRec → List AprSampleRec
  | [] => []
  | s :: rest => insertDesc s (sortByTimestampDesc rest)

/-- getHistoricalSamples: order by timestamp descending, apply the
optional inclusive date-range filters, take at most limit rows. -/
def getHistoricalSamples (store : List AprSampleRec) (limit : ℤ)
    (startDate endDate : Option ℤ) : List AprSampleRec :=
  ((sortByTimestampDesc store).filter (fun s =>
      (match startDate with
       | none => true
       | some d => decide (d ≤ s.timestamp)) &&
      (match endDate with
       | none => true
       | some d => decide (s.timestamp ≤ d)))).take limit.toNat

/-- The controller's limit normalisation: the expression limit or-else 30
maps an absent limit and the falsy limit 0 to the default 30. -/
def getHistoryLimit (limit : Option ℤ) : ℤ :=
  match limit with
  | none => 30
  | some v => if v = 0 then 30 else v

/-- GET apr history handler core: delegate to getHistoricalSamples with
the normalised limit (date-string validation elided: dates arrive
already parsed). -/
def getHistory (store : List AprSampleRec) (limit : Option ℤ)
    (startDate endDate : Option ℤ) : List AprSampleRec :=
  getHistoricalSamples store (getHistoryLimit limit) startDate endDate

/-- Concrete sample used by witnesses: index text "1" at epoch 0. -/
def prevUnitSample : AprSampleRec :=
  { timestamp := 0, accEthPerShare := "1", ethPrice := JsNum.num 1,
    ssvPrice := JsNum.num 1, currentApr := none, aprProjected := none,
    deltaIndex := none, deltaTime := none }

/-- Concrete sample used by witnesses: index text "5" at epoch 0. -/
def prevFiveSample : AprSampleRec :=
  { timestamp := 0, accEthPerShare := "5", ethPrice := JsNum.num 1,
    ssvPrice := JsNum.num 1, currentApr := none, aprProjected := none,
    deltaIndex := none, deltaTime := none }

/-- Concrete sample used by witnesses: index text "0" at epoch 0. -/
def prevZeroSample : AprSampleRec :=
  { timestamp := 0, accEthPerShare := "0", ethPrice := JsNum.num 1,
    ssvPrice := JsNum.num 1, currentApr := none, aprProjected := none,
    deltaIndex := none, deltaTime := none }

/-- The sample assembled by a first collection cycle on an empty store with
index 3, prices 2 and 1, at epoch 0 (used by a witness). -/
def emptyCollectSample : AprSampleRec :=
  { timestamp := 0, accEthPerShare := natToDecString 3, ethPrice := JsNum.num 2,
    ssvPrice := JsNum.num 1, currentApr := none, aprProjected := none,
    deltaIndex := none, deltaTime := none }

theorem computeApr_spec (prev : AprSampleRec) (previousRaw : ℕ) (w : Bool)
    (currentRaw : ℕ) (a b : ℚ) (t : ℤ)
    (hparse : parseWeiFromNumeric prev.accEthPerShare = some (previousRaw, w))
    (hinc : previousRaw < currentRaw)
    (hb : b ≠ 0)
    (hdt : 0 < Int.fdiv (t - prev.timestamp) 1000) :
    computeApr (some prev) currentRaw (JsNum.num a) (JsNum.num b) t =
      { apr := some (JsNum.num
          ((((currentRaw : ℚ) - (previousRaw : ℚ)) / 10 ^ 18
              / ((Int.fdiv (t - prev.timestamp) 1000 : ℤ) : ℚ))
            * (SECONDS_PER_YEAR : ℚ) * (a / b) * 100)),
        deltaIndex := some ((currentRaw : ℤ) - (previousRaw : ℤ)),
        deltaTime := some (Int.fdiv (t - prev.timestamp) 1000),
        nonPositivePriceWarned := decide (a ≤ 0) || decide (b ≤ 0),
        precisionLossWarned :=
          decide (maxSafeInteger < (currentRaw : ℤ) - (previousRaw : ℤ)) } := by
  have hd : ¬ ((currentRaw : ℤ) - (previousRaw : ℤ) ≤ 0) := by omega
  have hdt2 : ¬ (Int.fdiv (t - prev.timestamp) 1000 ≤ 0) := not_le.mpr hdt
  have hq : ((Int.fdiv (t - prev.timestamp) 1000 : ℤ) : ℚ) ≠ 0 := by
    exact_mod_cast hdt.ne'
  simp only [computeApr, hparse, JsNum.isFinite, JsNum.jsLe, JsNum.div,
    JsNum.mul, Bool.and_self, Bool.not_true, if_neg hd, if_neg hdt2,
    if_pos hb, if_pos (show (10 : ℚ) ^ 18 ≠ 0 by norm_num), if_pos hq]
  rw [if_neg (by simp), if_neg (by simp)]
  simp only [ComputeAprResult.mk.injEq, Option.some.injEq, JsNum.num.injEq,
    and_true, true_and]
  push_cast
  ring

theorem computeApr_no_previous (acc : ℕ) (pe ps : JsNum) (t : ℤ) :
    (computeApr none acc pe ps t).apr = none := by
  unfold computeApr
  split
  · rfl
  · rfl

theorem computeAprProjected_null_of_bad (a c v : JsNum)
    (h : ¬ ((c.isFinite && v.isFinite) = true) ∨ v.jsLe (JsNum.num 0) = true) :
    computeAprProjected (some a) c v = none := by
  simp only [computeAprProjected]
  rcases h with h | h
  · rw [if_pos h]
  · by_cases hf : (c.isFinite && v.isFinite) = true
    · rw [if_neg (by simp [hf]), if_pos h]
    · rw [if_pos hf]

theorem getProjectedApr_error_value (o : Option JsNum) :
    (getProjectedApr o (.error ())).value = none := by
  cases o <;> rfl

theorem getProjectedApr_bad_balances (o : Option JsNum) (c v : JsNum)
    (h : ¬ ((c.isFinite && v.isFinite) = true) ∨ v.jsLe (JsNum.num 0) = true) :
    (getProjectedApr o (.ok (c, v))).value = none := by
  cases o with
  | none => rfl
  | some a =>
      simp only [getProjectedApr]
      exact computeAprProjected_null_of_bad a c v h

theorem computeApr_null_of_nonincreasing (prev : AprSampleRec)
    (previousRaw : ℕ) (w : Bool) (currentRaw : ℕ) (pe ps : JsNum) (t : ℤ)
    (hparse : parseWeiFromNumeric prev.accEthPerShare = some (previousRaw, w))
    (hle : currentRaw ≤ previousRaw) :
    (computeApr (some prev) currentRaw pe ps t).apr = none := by
  have hd : ((currentRaw : ℤ) - (previousRaw : ℤ) ≤ 0) := by omega
  by_cases hfin : (pe.isFinite && ps.isFinite) = true
  · simp only [computeApr, hparse, if_neg (not_not_intro hfin), if_pos hd]
  · simp only [computeApr, if_pos hfin]

theorem computeApr_apr_finite (previous : Option AprSampleRec) (acc : ℕ)
    (pe ps : JsNum) (t : ℤ) (x : JsNum)
    (h : (computeApr previous acc pe ps t).apr = some x) :
    x.isFinite = true := by
  simp only [computeApr] at h
  repeat' split at h
  all_goals simp_all

theorem collect_projected_isolated (store : List AprSampleRec) (acc : ℕ)
    (pe ps : JsNum) (bal : Except Unit (JsNum × JsNum)) (now : ℤ)
    (hfresh : ∀ x ∈ store, x.timestamp ≠ now)
    (hbad : bal = .error () ∨ ∃ c v, bal = .ok (c, v) ∧
        (¬ ((c.isFinite && v.isFinite) = true) ∨ v.jsLe (JsNum.num 0) = true)) :
    ∃ s, collectAprSample store (.ok acc) (.ok (pe, ps)) bal now =
        (.ok s, store ++ [s]) ∧
      s.aprProjected = none ∧
      s.currentApr = (computeApr (getLatestSample store) acc pe ps now).apr := by
  have hval : (getProjectedApr
      (computeApr (getLatestSample store) acc pe ps now).apr bal).value = none := by
    rcases hbad with h | ⟨c, v, h, hcv⟩
    · subst h; exact getProjectedApr_error_value _
    · subst h; exact getProjectedApr_bad_balances _ c v hcv
  have hins : (store.any fun x => x.timestamp = now) = false := by
    simp only [List.any_eq_false, decide_eq_true_eq]
    exact hfresh
  refine ⟨{ timestamp := now, accEthPerShare := natToDecString acc,
            ethPrice := pe, ssvPrice := ps,
            currentApr := (computeApr (getLatestSample store) acc pe ps now).apr,
            aprProjected := none,
            deltaIndex := (computeApr (getLatestSample store) acc pe ps now).deltaIndex,
            deltaTime := (computeApr (getLatestSample store) acc pe ps now).deltaTime },
          ?_, rfl, rfl⟩
  simp only [collectAprSample, insertSample, hval, hins]
  rfl

theorem collect_fetch_failure_eq (store : List AprSampleRec)
    (indexFetch : Except Unit ℕ) (priceFetch : Except Unit (JsNum × JsNum))
    (bal : Except Unit (JsNum × JsNum)) (now : ℤ)
    (h : indexFetch = .error () ∨ priceFetch = .error ()) :
    collectAprSample store indexFetch priceFetch bal now = (.error (), store) := by
  rcases h with h | h
  · subst h
    cases priceFetch with
    | error e => rfl
    | ok p => rcases p with ⟨pe, ps⟩; rfl
  · subst h
    cases indexFetch with
    | error e => rfl
    | ok n => rfl

theorem computeApr_time_congr (prev : AprSampleRec) (acc : ℕ) (pe ps : JsNum)
    (t1 t2 : ℤ)
    (h : Int.fdiv (t1 - prev.timestamp) 1000 = Int.fdiv (t2 - prev.timestamp) 1000) :
    computeApr (some prev) acc pe ps t1 = computeApr (some prev) acc pe ps t2 := by
  simp only [computeApr, h]

theorem getCurrentApr_store_empty (acc : ℕ) (pe ps : JsNum)
    (bal : Except Unit (JsNum × JsNum)) (now : ℤ) :
    getCurrentApr [] (.ok acc) (.ok (pe, ps)) bal now =
      some { apr := none, aprProjected := none,
             lastUpdated := Int.fdiv now 1000 } := by
  have h0 : (computeApr (getLatestSample []) acc pe ps now).apr = none :=
    computeApr_no_previous acc pe ps now
  simp only [getCurrentApr, h0, getProjectedApr]

theorem collect_store_empty_null (acc : ℕ) (pe ps : JsNum)
    (bal : Except Unit (JsNum × JsNum)) (now : ℤ) (s : AprSampleRec)
    (store2 : List AprSampleRec)
    (hcol : collectAprSample [] (.ok acc) (.ok (pe, ps)) bal now =
      (.ok s, store2)) :
    s.currentApr = none ∧ s.aprProjected = none := by
  have h0 : (computeApr (getLatestSample []) acc pe ps now).apr = none :=
    computeApr_no_previous acc pe ps now
  simp only [collectAprSample, h0, getProjectedApr, insertSample,
    List.any_nil, Bool.false_eq_true, if_false, List.nil_append,
    Prod.mk.injEq, Except.ok.injEq] at hcol
  obtain ⟨hs, -⟩ := hcol
  subst hs
  exact ⟨rfl, rfl⟩

theorem length_insertDesc (s : AprSampleRec) (l : List AprSampleRec) :
    (insertDesc s l).length = l.length + 1 := by
  induction l with
  | nil => rfl
  | cons t rest ih =>
      simp only [insertDesc]
      split
      · rfl
      · simp [ih]

theorem length_sortByTimestampDesc (l : List AprSampleRec) :
    (sortByTimestampDesc l).length = l.length := by
  induction l with
  | nil => rfl
  | cons s rest ih => simp [sortByTimestampDesc, length_insertDesc, ih]

theorem take_ne_nil_of_ne_nil {α : Type} (n : ℕ) (hn : n ≠ 0) (l : List α)
    (hl : l ≠ []) : l.take n ≠ [] := by
  cases l with
  | nil => exact absurd rfl hl
  | cons a l2 =>
      cases n with
      | zero => exact absurd rfl hn
      | succ m => simp

theorem natToDigitsAux_append (fuel : ℕ) :
    ∀ (n : ℕ) (acc : List Char),
      natToDigitsAux fuel n acc = natToDigitsAux fuel n [] ++ acc := by
  induction fuel with
  | zero => intro n acc; rfl
  | succ fuel ih =>
      intro n acc
      simp only [natToDigitsAux]
      by_cases hn : n < 10
      · simp [hn]
      · rw [if_neg hn, if_neg hn, ih (n / 10) (Char.ofNat (48 + n % 10) :: acc),
          ih (n / 10) [Char.ofNat (48 + n % 10)]]
        simp

theorem natToDigitsAux_fuel (f1 : ℕ) :
    ∀ (f2 n : ℕ), n < 10 ^ f1 → n < 10 ^ f2 → 1 ≤ f1 → 1 ≤ f2 →
      natToDigitsAux f1 n [] = natToDigitsAux f2 n [] := by
  induction f1 with
  | zero => intro f2 n h1 h2 hf1 hf2; omega
  | succ k ih =>
      intro f2 n h1 h2 hf1 hf2
      cases f2 with
      | zero => omega
      | succ m =>
          simp only [natToDigitsAux]
          by_cases hn : n < 10
          · simp [hn]
          · rw [if_neg hn, if_neg hn,
              natToDigitsAux_append k, natToDigitsAux_append m]
            have hk : n / 10 < 10 ^ k := by
              apply Nat.div_lt_of_lt_mul
              have hpk : (10 : ℕ) ^ (k + 1) = 10 ^ k * 10 := pow_succ 10 k
              omega
            have hm : n / 10 < 10 ^ m := by
              apply Nat.div_lt_of_lt_mul
              have hpm : (10 : ℕ) ^ (m + 1) = 10 ^ m * 10 := pow_succ 10 m
              omega
            have hk1 : 1 ≤ k := by
              by_contra hc
              have : k = 0 := by omega
              subst this
              simp at hk
              omega
            have hm1 : 1 ≤ m := by
              by_contra hc
              have : m = 0 := by omega
              subst this
              simp at hm
              omega
            rw [ih m (n / 10) hk hm hk1 hm1]

theorem natToDecString_small (n : ℕ) (hn : n < 10) :
    (natToDecString n).data = [Char.ofNat (48 + n % 10)] := by
  simp [natToDecString, natToDigitsAux, hn]

theorem natToDecString_step (n : ℕ) (hn : 10 ≤ n) :
    (natToDecString n).data =
      (natToDecString (n / 10)).data ++ [Char.ofNat (48 + n % 10)] := by
  have h1 : (natToDecString n).data = natToDigitsAux (n + 1) n [] := rfl
  have hfuel : natToDigitsAux (n + 1) n [] =
      natToDigitsAux n (n / 10) [Char.ofNat (48 + n % 10)] := by
    simp only [natToDigitsAux]
    rw [if_neg (by omega)]
  rw [h1, hfuel, natToDigitsAux_append]
  congr 1
  apply natToDigitsAux_fuel
  · calc n / 10 ≤ n := Nat.div_le_self n 10
      _ < 10 ^ n := Nat.lt_pow_self (by norm_num) n
  · calc n / 10 < 10 ^ (n / 10) := Nat.lt_pow_self (by norm_num) (n / 10)
      _ ≤ 10 ^ (n / 10 + 1) := Nat.pow_le_pow_right (by norm_num) (by omega)
  · omega
  · omega

theorem digitChar_facts (d : ℕ) (hd : d < 10) :
    (Char.ofNat (48 + d)).toNat = 48 + d ∧
    (Char.ofNat (48 + d)).isDigit = true ∧
    Char.ofNat (48 + d) ≠ '.' ∧
    (Char.ofNat (48 + d)).isWhitespace = false ∧
    (Char.ofNat (48 + d) = '0' ↔ d = 0) := by
  interval_cases d <;> refine ⟨by decide, by decide, by decide, by decide, by decide⟩

theorem natToDecString_shape (n : ℕ) :
    (natToDecString n).data ≠ [] ∧
    ∀ c ∈ (natToDecString n).data,
      c.isDigit = true ∧ c.isWhitespace = false ∧ c ≠ '.' := by
  induction n using Nat.strong_induction_on with
  | _ n ih =>
      by_cases hn : n < 10
      · rw [natToDecString_small n hn]
        refine ⟨by simp, ?_⟩
        intro c hc
        simp only [List.mem_singleton] at hc
        subst hc
        obtain ⟨-, h2, h3, h4, -⟩ := digitChar_facts (n % 10) (Nat.mod_lt n (by norm_num))
        exact ⟨h2, h4, h3⟩
      · rw [natToDecString_step n (by omega)]
        have ihd := ih (n / 10) (Nat.div_lt_self (by omega) (by norm_num))
        refine ⟨by simp [ihd.1], ?_⟩
        intro c hc
        rcases List.mem_append.mp hc with hc | hc
        · exact ihd.2 c hc
        · simp only [List.mem_singleton] at hc
          subst hc
          obtain ⟨-, h2, h3, h4, -⟩ := digitChar_facts (n % 10) (Nat.mod_lt n (by omega))
          exact ⟨h2, h4, h3⟩

theorem decDigitsToNat_append_digit (cs : List Char) (c : Char) :
    decDigitsToNat (cs ++ [c]) = decDigitsToNat cs * 10 + (c.toNat - 48) := by
  simp [decDigitsToNat, List.foldl_append]

theorem decDigitsToNat_natToDecString (n : ℕ) :
    decDigitsToNat (natToDecString n).data = n := by
  induction n using Nat.strong_induction_on with
  | _ n ih =>
      by_cases hn : n < 10
      · rw [natToDecString_small n hn]
        have := (digitChar_facts (n % 10) (Nat.mod_lt n (by norm_num))).1
        simp [decDigitsToNat, this]
        omega
      · rw [natToDecString_step n (by omega), decDigitsToNat_append_digit,
          ih (n / 10) (Nat.div_lt_self (by omega) (by norm_num)),
          (digitChar_facts (n % 10) (Nat.mod_lt n (by omega))).1]
        omega


theorem dropWhile_eq_self_of_not (p : Char → Bool) (cs : List Char)
    (h : ∀ c ∈ cs, p c = false) : cs.dropWhile p = cs := by
  cases cs with
  | nil => rfl
  | cons a l => simp [List.dropWhile_cons, h a (by simp)]

theorem trimChars_eq_self (cs : List Char)
    (h : ∀ c ∈ cs, c.isWhitespace = false) : trimChars cs = cs := by
  unfold trimChars
  rw [dropWhile_eq_self_of_not _ cs h,
    dropWhile_eq_self_of_not _ cs.reverse (by
      intro c hc
      exact h c (List.mem_reverse.mp hc)),
    List.reverse_reverse]

theorem splitOnDotAux_no_dot (cs : List Char) :
    ∀ acc : List Char, (∀ c ∈ cs, c ≠ '.') →
      splitOnDotAux cs acc = [acc.reverse ++ cs] := by
  induction cs with
  | nil => intro acc h; simp [splitOnDotAux]
  | cons a l ih =>
      intro acc h
      have ha : a ≠ '.' := h a (by simp)
      simp only [splitOnDotAux, if_neg ha]
      rw [ih (a :: acc) (fun c hc => h c (by simp [hc]))]
      simp

theorem splitOnDotAux_one_dot (whole : List Char) :
    ∀ acc frac : List Char, (∀ c ∈ whole, c ≠ '.') →
      splitOnDotAux (whole ++ '.' :: frac) acc =
        (acc.reverse ++ whole) :: splitOnDotAux frac [] := by
  induction whole with
  | nil => intro acc frac h; simp [splitOnDotAux]
  | cons a l ih =>
      intro acc frac h
      have ha : a ≠ '.' := h a (by simp)
      rw [show ((a :: l) ++ '.' :: frac) = a :: (l ++ '.' :: frac) from rfl]
      simp only [splitOnDotAux, if_neg ha]
      rw [ih (a :: acc) frac (fun c hc => h c (by simp [hc]))]
      simp

theorem parseWeiFromNumeric_natToDecString (n : ℕ) :
    parseWeiFromNumeric (natToDecString n) = some (n, false) := by
  obtain ⟨hne, hprops⟩ := natToDecString_shape n
  have hws : ∀ c ∈ (natToDecString n).data, c.isWhitespace = false :=
    fun c hc => (hprops c hc).2.1
  have hnd : ∀ c ∈ (natToDecString n).data, c ≠ '.' :=
    fun c hc => (hprops c hc).2.2
  simp only [parseWeiFromNumeric, trimChars_eq_self _ hws, splitOnDot,
    splitOnDotAux_no_dot _ [] hnd, List.reverse_nil, List.nil_append]
  rw [if_pos ⟨hne, by
      simp only [List.all_eq_true, decide_eq_true_eq]
      exact fun c hc => (hprops c hc).1⟩,
    decDigitsToNat_natToDecString]

theorem decDigitsToNat_foldl_zeros (cs : List Char)
    (h : ∀ c ∈ cs, c = '0') :
    ∀ acc : ℕ, List.foldl (fun acc c => acc * 10 + (c.toNat - 48)) acc cs =
      acc * 10 ^ cs.length := by
  induction cs with
  | nil => intro acc; simp
  | cons c l ih =>
      intro acc
      have hc : c = '0' := h c (by simp)
      subst hc
      simp only [List.foldl_cons]
      rw [ih (fun d hd => h d (by simp [hd]))]
      have : ('0').toNat - 48 = 0 := by decide
      rw [this]
      simp [List.length_cons, pow_succ]
      ring

theorem exists_nonzero_digit (f : ℕ) (hf : f ≠ 0) :
    ∃ c ∈ (natToDecString f).data, c ≠ '0' := by
  by_contra hall
  push_neg at hall
  have h0 : decDigitsToNat (natToDecString f).data = 0 := by
    have := decDigitsToNat_foldl_zeros (natToDecString f).data hall 0
    simpa [decDigitsToNat] using this
  rw [decDigitsToNat_natToDecString] at h0
  exact hf h0

theorem mem_of_mem_dropWhile (p : Char → Bool) (cs : List Char) (c : Char)
    (h : c ∈ cs.dropWhile p) : c ∈ cs := by
  induction cs with
  | nil => simp at h
  | cons a l ih =>
      by_cases ha : p a
      · rw [List.dropWhile_cons_of_pos ha] at h
        exact List.mem_cons_of_mem a (ih h)
      · rw [List.dropWhile_cons_of_neg ha] at h
        exact h

theorem dropWhile_head_not (p : Char → Bool) (cs : List Char) :
    cs.dropWhile p = [] ∨
    ∃ x xs, cs.dropWhile p = x :: xs ∧ p x = false := by
  induction cs with
  | nil => exact Or.inl rfl
  | cons a l ih =>
      by_cases ha : p a
      · rw [List.dropWhile_cons_of_pos ha]
        exact ih
      · rw [List.dropWhile_cons_of_neg ha]
        exact Or.inr ⟨a, l, rfl, by simpa using ha⟩

theorem stripTrailingZeros_spec (cs : List Char)
    (hx : ∃ c ∈ cs, c ≠ '0') :
    stripTrailingZeros cs ≠ [] ∧
    (∀ c ∈ stripTrailingZeros cs, c ∈ cs) ∧
    (stripTrailingZeros cs).any (fun c => c ≠ '0') = true := by
  unfold stripTrailingZeros
  have hmem : ∀ c ∈ (cs.reverse.dropWhile (fun c => c = '0')).reverse, c ∈ cs := by
    intro c hc
    rw [List.mem_reverse] at hc
    have := mem_of_mem_dropWhile _ _ _ hc
    exact List.mem_reverse.mp this
  rcases dropWhile_head_not (fun c => decide (c = '0')) cs.reverse with hnil | ⟨y, ys, hcons, hy⟩
  · exfalso
    rw [List.dropWhile_eq_nil_iff] at hnil
    obtain ⟨c, hc, hc0⟩ := hx
    exact hc0 (by simpa using hnil c (List.mem_reverse.mpr hc))
  · rw [hcons]
    refine ⟨by simp, fun c hc => hmem c (by rw [hcons]; exact hc), ?_⟩
    rw [List.any_eq_true]
    refine ⟨y, by simp, by simpa using hy⟩

theorem padStartZeros_mem (cs : List Char) (n : ℕ) (c : Char)
    (h : c ∈ padStartZeros cs n) : c = '0' ∨ c ∈ cs := by
  unfold padStartZeros at h
  rcases List.mem_append.mp h with h | h
  · exact Or.inl (List.eq_of_mem_replicate h)
  · exact Or.inr h

theorem padStartZeros_exists_nonzero (cs : List Char) (n : ℕ)
    (h : ∃ c ∈ cs, c ≠ '0') : ∃ c ∈ padStartZeros cs n, c ≠ '0' := by
  obtain ⟨c, hc, hc0⟩ := h
  exact ⟨c, List.mem_append_right _ hc, hc0⟩

theorem gwei_parse_floor_div (x : ℕ) :
    ∃ out, gweiToEthString (natToDecString x) = some out ∧
      parseWeiFromNumeric out =
        some (x / 1000000000, decide (x % 1000000000 ≠ 0)) := by
  obtain ⟨hne, hprops⟩ := natToDecString_shape x
  have hws : ∀ c ∈ (natToDecString x).data, c.isWhitespace = false :=
    fun c hc => (hprops c hc).2.1
  have hall : (natToDecString x).data.all Char.isDigit = true := by
    simp only [List.all_eq_true, decide_eq_true_eq]
    exact fun c hc => (hprops c hc).1
  simp only [gweiToEthString, trimChars_eq_self _ hws,
    decDigitsToNat_natToDecString]
  rw [if_pos ⟨hne, hall⟩]
  by_cases hz : x % 1000000000 = 0
  · rw [if_pos hz]
    refine ⟨_, rfl, ?_⟩
    rw [parseWeiFromNumeric_natToDecString]
    simp [hz]
  · rw [if_neg hz]
    refine ⟨_, rfl, ?_⟩
    obtain ⟨hwne, hwprops⟩ := natToDecString_shape (x / 1000000000)
    obtain ⟨hfne, hfprops⟩ := natToDecString_shape (x % 1000000000)
    have hfx : ∃ c ∈ padStartZeros (natToDecString (x % 1000000000)).data 9,
        c ≠ '0' :=
      padStartZeros_exists_nonzero _ 9 (exists_nonzero_digit _ hz)
    obtain ⟨hsne, hsmem, hsany⟩ := stripTrailingZeros_spec _ hfx
    have hS : ∀ c ∈ stripTrailingZeros
        (padStartZeros (natToDecString (x % 1000000000)).data 9),
        c.isDigit = true ∧ c.isWhitespace = false ∧ c ≠ '.' := by
      intro c hc
      rcases padStartZeros_mem _ 9 c (hsmem c hc) with h0 | hin
      · subst h0
        refine ⟨by decide, by decide, by decide⟩
      · exact hfprops c hin
    set W := (natToDecString (x / 1000000000)).data with hW
    set S := stripTrailingZeros
      (padStartZeros (natToDecString (x % 1000000000)).data 9) with hS2
    have hdata : (⟨W ++ '.' :: S⟩ : String).data = W ++ '.' :: S := rfl
    have htrim : trimChars (W ++ '.' :: S) = W ++ '.' :: S := by
      apply trimChars_eq_self
      intro c hc
      rcases List.mem_append.mp hc with hc | hc
      · exact (hwprops c hc).2.1
      · rcases List.mem_cons.mp hc with hc | hc
        · subst hc; decide
        · exact (hS c hc).2.1
    have hsplit : splitOnDot (W ++ '.' :: S) = [W, S] := by
      unfold splitOnDot
      rw [splitOnDotAux_one_dot W [] S (fun c hc => (hwprops c hc).2.2)]
      rw [splitOnDotAux_no_dot S [] (fun c hc => (hS c hc).2.2)]
      simp
    simp only [parseWeiFromNumeric, hdata, htrim, hsplit]
    rw [if_pos ⟨hwne, by
        simp only [List.all_eq_true, decide_eq_true_eq]
        exact fun c hc => (hwprops c hc).1, hsne, by
        simp only [List.all_eq_true, decide_eq_true_eq]
        exact fun c hc => (hS c hc).1⟩]
    rw [decDigitsToNat_natToDecString]
    have : (S.any fun c => c ≠ '0') = true := hsany
    rw [this]
    simp [hz]

theorem jsnum_mul_num_num (a b : ℚ) :
    (JsNum.num a).mul (JsNum.num b) = JsNum.num (a * b) := rfl

theorem jsnum_div_num_num (a b : ℚ) (hb : b ≠ 0) :
    (JsNum.num a).div (JsNum.num b) = JsNum.num (a / b) := by
  simp only [JsNum.div, if_pos hb]

theorem jsnum_div_num_zero (a : ℚ) (ha : 0 < a) :
    (JsNum.num a).div (JsNum.num 0) = JsNum.posInf := by
  simp only [JsNum.div]
  rw [if_neg (show ¬ ((0 : ℚ) ≠ 0) by simp), if_pos ha]

theorem jsnum_mul_num_posInf (a : ℚ) (ha : 0 < a) :
    (JsNum.num a).mul JsNum.posInf = JsNum.posInf := by
  simp only [JsNum.mul, if_pos ha]

theorem jsnum_mul_posInf_num (b : ℚ) (hb : 0 < b) :
    JsNum.posInf.mul (JsNum.num b) = JsNum.posInf := by
  simp only [JsNum.mul, if_pos hb]

theorem computeApr_zero_ssv (prev : AprSampleRec) (previousRaw : ℕ) (w : Bool)
    (acc : ℕ) (a : ℚ) (t : ℤ)
    (hparse : parseWeiFromNumeric prev.accEthPerShare = some (previousRaw, w))
    (hinc : previousRaw < acc)
    (ha : 0 < a)
    (hdt : 0 < Int.fdiv (t - prev.timestamp) 1000) :
    (computeApr (some prev) acc (JsNum.num a) (JsNum.num 0) t).apr = none := by
  have hd : ¬ ((acc : ℤ) - (previousRaw : ℤ) ≤ 0) := by omega
  have hdt2 : ¬ (Int.fdiv (t - prev.timestamp) 1000 ≤ 0) := not_le.mpr hdt
  have hq : ((Int.fdiv (t - prev.timestamp) 1000 : ℤ) : ℚ) ≠ 0 := by
    exact_mod_cast hdt.ne'
  have hqpos : (0 : ℚ) < ((Int.fdiv (t - prev.timestamp) 1000 : ℤ) : ℚ) := by
    exact_mod_cast hdt
  have hΔ : (0 : ℚ) < (((acc : ℤ) - (previousRaw : ℤ) : ℤ) : ℚ) := by
    exact_mod_cast (show (0 : ℤ) < (acc : ℤ) - (previousRaw : ℤ) by omega)
  have hpos : 0 < ((((acc : ℤ) - (previousRaw : ℤ) : ℤ) : ℚ) / 10 ^ 18
      / ((Int.fdiv (t - prev.timestamp) 1000 : ℤ) : ℚ))
      * ((SECONDS_PER_YEAR : ℕ) : ℚ) := by
    apply mul_pos
    · exact div_pos (div_pos hΔ (by norm_num)) hqpos
    · norm_num [SECONDS_PER_YEAR]
  simp only [computeApr, hparse, JsNum.isFinite, Bool.and_self, Bool.not_true,
    if_neg hd, if_neg hdt2, jsnum_div_num_zero a ha,
    jsnum_div_num_num _ _ (show (10 : ℚ) ^ 18 ≠ 0 by norm_num),
    jsnum_div_num_num _ _ hq, jsnum_mul_num_num,
    jsnum_mul_num_posInf _ hpos,
    jsnum_mul_posInf_num 100 (by norm_num)]
  simp

/-- C1: for every pair of raw index values with currentRaw > previousRaw,
positive finite prices, and positive elapsed whole seconds between the
samples, computeApr returns a finite APR equal to the closed form
(ΔIndex_decimal / ΔTime_seconds) × SECONDS_PER_YEAR × (ethPrice / ssvPrice)
× 100 with ΔIndex_decimal the raw delta scaled down by 1e18 (equality is
exact in the rational model of the float arithmetic). -/
theorem claim1_baseline_apr_closed_form (prev : AprSampleRec)
    (previousRaw : ℕ) (w : Bool) (currentRaw : ℕ) (a b : ℚ) (t : ℤ)
    (hparse : parseWeiFromNumeric prev.accEthPerShare = some (previousRaw, w))
    (hinc : previousRaw < currentRaw)
    (ha : 0 < a) (hb : 0 < b)
    (hdt : 0 < Int.fdiv (t - prev.timestamp) 1000) :
    (computeApr (some prev) currentRaw (JsNum.num a) (JsNum.num b) t).apr =
      some (JsNum.num
        ((((currentRaw : ℚ) - (previousRaw : ℚ)) / 10 ^ 18
            / ((Int.fdiv (t - prev.timestamp) 1000 : ℤ) : ℚ))
          * (SECONDS_PER_YEAR : ℚ) * (a / b) * 100)) := by
  rw [computeApr_spec prev previousRaw w currentRaw a b t hparse hinc hb.ne'
    hdt]

/-- Witness for C1 at previous index 1, current index 3, prices 2 and 1,
elapsed 1000 milliseconds. -/
theorem claim1_witness :
    parseWeiFromNumeric prevUnitSample.accEthPerShare = some (1, false) ∧
    (1 : ℕ) < 3 ∧ (0 : ℚ) < 2 ∧ (0 : ℚ) < 1 ∧
    0 < Int.fdiv (1000 - prevUnitSample.timestamp) 1000 ∧
    (computeApr (some prevUnitSample) 3 (JsNum.num 2) (JsNum.num 1)
        1000).apr =
      some (JsNum.num
        ((((3 : ℕ) : ℚ) - ((1 : ℕ) : ℚ)) / 10 ^ 18
            / ((Int.fdiv (1000 - prevUnitSample.timestamp) 1000 : ℤ) : ℚ)
          * (SECONDS_PER_YEAR : ℚ) * ((2 : ℚ) / (1 : ℚ)) * 100)) :=
  ⟨by decide, by decide, by decide, by decide, by decide,
   claim1_baseline_apr_closed_form prevUnitSample 1 false 3 2 1 1000
     (by decide) (by decide) (by decide) (by decide) (by decide)⟩

/-- C2 counterexample: with exactly one sample ever stored, current()
can return a non-null apr (fresh index 3 against the stored index 1,
one elapsed second), so "at most one stored sample implies apr null"
fails as stated. -/
theorem claim2_counterexample :
    [prevUnitSample].length = 1 ∧
    (getCurrentApr [prevUnitSample] (.ok 3)
        (.ok (JsNum.num 2, JsNum.num 1)) (.ok (JsNum.num 1, JsNum.num 1))
        1000).bind CurrentAprResult.apr ≠ none := by
  exact ⟨rfl, by decide⟩

/-- C2 (amended): when no sample at all exists in the store, the baseline
APR is null — current() returns apr and aprProjected null, and a
collection cycle persists a sample with null currentApr and
aprProjected.  (With one stored sample, the fresh reading already forms
the second point of the delta, so a non-null APR is possible.) -/
theorem claim2_no_sample_null (acc : ℕ) (pe ps : JsNum)
    (bal : Except Unit (JsNum × JsNum)) (now : ℤ) :
    getCurrentApr [] (.ok acc) (.ok (pe, ps)) bal now =
      some { apr := none, aprProjected := none,
             lastUpdated := Int.fdiv now 1000 } ∧
    ∀ s store2,
      collectAprSample [] (.ok acc) (.ok (pe, ps)) bal now = (.ok s, store2) →
      s.currentApr = none ∧ s.aprProjected = none :=
  ⟨getCurrentApr_store_empty acc pe ps bal now,
   fun s store2 h => collect_store_empty_null acc pe ps bal now s store2 h⟩

/-- Witness for the amended C2 on the empty store. -/
theorem claim2_witness :
    getCurrentApr [] (.ok 3) (.ok (JsNum.num 2, JsNum.num 1))
        (.ok (JsNum.num 1, JsNum.num 1)) 0 =
      some { apr := none, aprProjected := none,
             lastUpdated := Int.fdiv 0 1000 } ∧
    (emptyCollectSample.currentApr = none ∧
      emptyCollectSample.aprProjected = none) :=
  ⟨(claim2_no_sample_null 3 (JsNum.num 2) (JsNum.num 1)
      (.ok (JsNum.num 1, JsNum.num 1)) 0).1,
   (claim2_no_sample_null 3 (JsNum.num 2) (JsNum.num 1)
      (.ok (JsNum.num 1, JsNum.num 1)) 0).2
     emptyCollectSample [emptyCollectSample] (by rfl)⟩

/-- C3: whenever the current raw index does not exceed the parsed
previous raw index, computeApr yields a null APR for all prices and
timestamps. -/
theorem claim3_nonincreasing_null (prev : AprSampleRec) (previousRaw : ℕ)
    (w : Bool) (currentRaw : ℕ) (pe ps : JsNum) (t : ℤ)
    (hparse : parseWeiFromNumeric prev.accEthPerShare = some (previousRaw, w))
    (hle : currentRaw ≤ previousRaw) :
    (computeApr (some prev) currentRaw pe ps t).apr = none :=
  computeApr_null_of_nonincreasing prev previousRaw w currentRaw pe ps t
    hparse hle

/-- Witness for C3 at previous index 5 and current index 4. -/
theorem claim3_witness :
    parseWeiFromNumeric prevFiveSample.accEthPerShare = some (5, false) ∧
    (4 : ℕ) ≤ 5 ∧
    (computeApr (some prevFiveSample) 4 (JsNum.num 2) (JsNum.num 1)
        777).apr = none :=
  ⟨by decide, by decide,
   claim3_nonincreasing_null prevFiveSample 5 false 4 (JsNum.num 2)
     (JsNum.num 1) 777 (by decide) (by decide)⟩

/-- C4: non-finite prices yield null; a finite non-positive price does
not by itself yield null — the computation proceeds (non-null result)
with only the warning flag set; a zero ssvPrice makes the final value
non-finite and hence null; and any returned APR is finite. -/
theorem claim4_price_policy :
    (∀ previous acc pe ps t, ¬ ((pe.isFinite && ps.isFinite) = true) →
        (computeApr previous acc pe ps t).apr = none) ∧
    (∀ (prev : AprSampleRec) previousRaw w acc (a b : ℚ) t,
        parseWeiFromNumeric prev.accEthPerShare = some (previousRaw, w) →
        previousRaw < acc → b ≠ 0 →
        0 < Int.fdiv (t - prev.timestamp) 1000 →
        (a ≤ 0 ∨ b ≤ 0) →
        (computeApr (some prev) acc (JsNum.num a) (JsNum.num b) t).apr ≠
            none ∧
        (computeApr (some prev) acc (JsNum.num a)
            (JsNum.num b) t).nonPositivePriceWarned = true) ∧
    (∀ (prev : AprSampleRec) previousRaw w acc (a : ℚ) t,
        parseWeiFromNumeric prev.accEthPerShare = some (previousRaw, w) →
        previousRaw < acc → 0 < a →
        0 < Int.fdiv (t - prev.timestamp) 1000 →
        (computeApr (some prev) acc (JsNum.num a) (JsNum.num 0) t).apr =
          none) ∧
    (∀ previous acc pe ps t x,
        (computeApr previous acc pe ps t).apr = some x →
        x.isFinite = true) := by
  refine ⟨?_, ?_, ?_, ?_⟩
  · intro previous acc pe ps t h
    simp only [computeApr, if_pos h]
  · intro prev previousRaw w acc a b t h1 h2 h3 h4 h5
    rw [computeApr_spec prev previousRaw w acc a b t h1 h2 h3 h4]
    refine ⟨by simp, ?_⟩
    rcases h5 with h | h <;> simp [h]
  · intro prev previousRaw w acc a t h1 h2 h3 h4
    exact computeApr_zero_ssv prev previousRaw w acc a t h1 h2 h3 h4
  · exact computeApr_apr_finite

/-- Witness for C4: NaN price yields null; a negative ethPrice still
produces a non-null warned result; a zero ssvPrice yields null; the
closed-form output of a valid run is finite. -/
theorem claim4_witness :
    (¬ ((JsNum.nan.isFinite && (JsNum.num 1).isFinite) = true)) ∧
    (computeApr none 3 JsNum.nan (JsNum.num 1) 0).apr = none ∧
    ((computeApr (some prevUnitSample) 3 (JsNum.num (-2)) (JsNum.num 1)
        1000).apr ≠ none ∧
      (computeApr (some prevUnitSample) 3 (JsNum.num (-2))
          (JsNum.num 1) 1000).nonPositivePriceWarned = true) ∧
    (computeApr (some prevUnitSample) 3 (JsNum.num 2) (JsNum.num 0)
        1000).apr = none ∧
    (JsNum.num
      ((((3 : ℕ) : ℚ) - ((1 : ℕ) : ℚ)) / 10 ^ 18
          / ((Int.fdiv (1000 - prevUnitSample.timestamp) 1000 : ℤ) : ℚ)
        * (SECONDS_PER_YEAR : ℚ)
        * ((2 : ℚ) / (1 : ℚ)) * 100)).isFinite = true :=
  ⟨by decide,
   claim4_price_policy.1 none 3 JsNum.nan (JsNum.num 1) 0 (by decide),
   claim4_price_policy.2.1 prevUnitSample 1 false 3 (-2) 1 1000 (by decide)
     (by decide) (by decide) (by decide) (Or.inl (by decide)),
   claim4_price_policy.2.2.1 prevUnitSample 1 false 3 2 1000 (by decide)
     (by decide) (by decide) (by decide),
   claim4_price_policy.2.2.2 (some prevUnitSample) 3 (JsNum.num 2)
     (JsNum.num 1) 1000 _
     (by rw [computeApr_spec prevUnitSample 1 false 3 2 1 1000 (by decide)
          (by decide) (by decide) (by decide)])⟩

/-- C5: projected APR is best-effort and isolated — a null baseline skips
the balance fetch and yields null; a failed balance fetch yields null; a
non-finite or non-positive validators balance yields null; and in all
these bad-balance cases a collection cycle still succeeds, persisting
the sample with its baseline APR intact and aprProjected null. -/
theorem claim5_projected_isolation :
    (∀ bal, getProjectedApr none bal =
        { value := none, balanceFetchAttempted := false }) ∧
    (∀ a, getProjectedApr (some a) (.error ()) =
        { value := none, balanceFetchAttempted := true }) ∧
    (∀ a c v, (¬ ((c.isFinite && v.isFinite) = true) ∨
        v.jsLe (JsNum.num 0) = true) →
        computeAprProjected (some a) c v = none) ∧
    (∀ store acc pe ps bal now, (∀ x ∈ store, x.timestamp ≠ now) →
        (bal = .error () ∨ ∃ c v, bal = .ok (c, v) ∧
            (¬ ((c.isFinite && v.isFinite) = true) ∨
              v.jsLe (JsNum.num 0) = true)) →
        ∃ s, collectAprSample store (.ok acc) (.ok (pe, ps)) bal now =
            (.ok s, store ++ [s]) ∧
          s.aprProjected = none ∧
          s.currentApr =
            (computeApr (getLatestSample store) acc pe ps now).apr) :=
  ⟨fun bal => rfl, fun a => rfl, computeAprProjected_null_of_bad,
   collect_projected_isolated⟩

/-- Witness for C5: a cycle on the empty store with a failed balance
fetch still persists its sample with aprProjected null. -/
theorem claim5_witness :
    (∀ x ∈ ([] : List AprSampleRec), x.timestamp ≠ (5 : ℤ)) ∧
    ∃ s, collectAprSample [] (.ok 3) (.ok (JsNum.num 2, JsNum.num 1))
        (.error ()) 5 = (.ok s, [] ++ [s]) ∧
      s.aprProjected = none ∧
      s.currentApr =
        (computeApr (getLatestSample []) 3 (JsNum.num 2) (JsNum.num 1)
          5).apr :=
  ⟨by simp,
   claim5_projected_isolation.2.2.2 [] 3 (JsNum.num 2) (JsNum.num 1)
     (.error ()) 5 (by simp) (Or.inl rfl)⟩

/-- C6: if the index fetch or the price fetch fails, the collection
cycle fails with an error and the store is left exactly as it was. -/
theorem claim6_fetch_failure_aborts (store : List AprSampleRec)
    (indexFetch : Except Unit ℕ) (priceFetch : Except Unit (JsNum × JsNum))
    (bal : Except Unit (JsNum × JsNum)) (now : ℤ)
    (h : indexFetch = .error () ∨ priceFetch = .error ()) :
    collectAprSample store indexFetch priceFetch bal now =
      (.error (), store) :=
  collect_fetch_failure_eq store indexFetch priceFetch bal now h

/-- Witness for C6: a failed index fetch over a one-sample store. -/
theorem claim6_witness :
    ((.error () : Except Unit ℕ) = .error () ∨
      (.ok (JsNum.num 2, JsNum.num 1) : Except Unit (JsNum × JsNum)) =
        .error ()) ∧
    collectAprSample [prevUnitSample] (.error ())
        (.ok (JsNum.num 2, JsNum.num 1)) (.ok (JsNum.num 1, JsNum.num 1))
        9 = (.error (), [prevUnitSample]) :=
  ⟨Or.inl rfl,
   claim6_fetch_failure_aborts [prevUnitSample] (.error ())
     (.ok (JsNum.num 2, JsNum.num 1)) (.ok (JsNum.num 1, JsNum.num 1)) 9
     (Or.inl rfl)⟩

/-- C7 counterexample: with identical feed values and an unchanged
stored latest sample, two invocations of current() at different
instants return different results (both lastUpdated and the APR change
with the invocation time), so bit-identical output fails as stated. -/
theorem claim7_counterexample :
    getCurrentApr [prevUnitSample] (.ok 3) (.ok (JsNum.num 2, JsNum.num 1))
        (.ok (JsNum.num 1, JsNum.num 1)) 1000 ≠
      getCurrentApr [prevUnitSample] (.ok 3)
        (.ok (JsNum.num 2, JsNum.num 1)) (.ok (JsNum.num 1, JsNum.num 1))
        2000 := by
  intro h
  have h2 := congrArg (fun o => Option.map CurrentAprResult.lastUpdated o) h
  exact absurd h2 (by decide)

/-- C7 (amended): current() is a pure function of the feed values, the
stored latest sample, and the invocation time; with unchanged feeds and
store, two invocations agree on apr and aprProjected whenever the
floor-elapsed seconds since the stored latest sample agree (lastUpdated
tracks the invocation time itself). -/
theorem claim7_current_deterministic (store : List AprSampleRec) (acc : ℕ)
    (pe ps : JsNum) (bal : Except Unit (JsNum × JsNum)) (now1 now2 : ℤ)
    (prev : AprSampleRec)
    (hprev : getLatestSample store = some prev)
    (helapsed : Int.fdiv (now1 - prev.timestamp) 1000 =
      Int.fdiv (now2 - prev.timestamp) 1000) :
    ((getCurrentApr store (.ok acc) (.ok (pe, ps)) bal now1).map
        fun r => (r.apr, r.aprProjected)) =
      ((getCurrentApr store (.ok acc) (.ok (pe, ps)) bal now2).map
        fun r => (r.apr, r.aprProjected)) := by
  have hc := computeApr_time_congr prev acc pe ps now1 now2 helapsed
  simp only [getCurrentApr, hprev, hc, Option.map_some']

/-- Witness for the amended C7: invocations at 1000 ms and 1500 ms share
the elapsed second and agree on apr and aprProjected. -/
theorem claim7_witness :
    getLatestSample [prevUnitSample] = some prevUnitSample ∧
    Int.fdiv (1000 - prevUnitSample.timestamp) 1000 =
      Int.fdiv (1500 - prevUnitSample.timestamp) 1000 ∧
    ((getCurrentApr [prevUnitSample] (.ok 3)
        (.ok (JsNum.num 2, JsNum.num 1)) (.ok (JsNum.num 1, JsNum.num 1))
        1000).map fun r => (r.apr, r.aprProjected)) =
      ((getCurrentApr [prevUnitSample] (.ok 3)
        (.ok (JsNum.num 2, JsNum.num 1)) (.ok (JsNum.num 1, JsNum.num 1))
        1500).map fun r => (r.apr, r.aprProjected)) :=
  ⟨by decide, by decide,
   claim7_current_deterministic [prevUnitSample] 3 (JsNum.num 2)
     (JsNum.num 1) (.ok (JsNum.num 1, JsNum.num 1)) 1000 1500
     prevUnitSample (by decide) (by decide)⟩

/-- C8 counterexample: the code pair gweiToEthString and
parseWeiFromNumeric does not round-trip — rendering 1 gives
"0.000000001", which parses back (with a truncation flag) to 0, not 1. -/
theorem claim8_counterexample :
    gweiToEthString "1" = some "0.000000001" ∧
    parseWeiFromNumeric "0.000000001" = some (0, true) ∧ (0 : ℕ) ≠ 1 := by
  refine ⟨by decide, by decide, by decide⟩

/-- C8 (amended): the code pair is not mutually inverse; instead, for
every non-negative integer x, parsing the rendered string recovers
x / 10^9 rounded down, flagging truncation exactly when 10^9 does not
divide x — so the exact round trip holds only at x = 0. -/
theorem claim8_parse_render_floor (x : ℕ) :
    ∃ out, gweiToEthString (natToDecString x) = some out ∧
      parseWeiFromNumeric out =
        some (x / 1000000000, decide (x % 1000000000 ≠ 0)) :=
  gwei_parse_floor_div x

/-- C9: when deltaIndex exceeds MAX_SAFE_INTEGER the computation still
proceeds to the closed-form result (no null) and the precision-loss
condition is observably flagged. -/
theorem claim9_precision_loss_flagged (prev : AprSampleRec)
    (previousRaw : ℕ) (w : Bool) (acc : ℕ) (a b : ℚ) (t : ℤ)
    (hparse : parseWeiFromNumeric prev.accEthPerShare = some (previousRaw, w))
    (hb : b ≠ 0)
    (hdt : 0 < Int.fdiv (t - prev.timestamp) 1000)
    (hbig : maxSafeInteger < (acc : ℤ) - (previousRaw : ℤ)) :
    (computeApr (some prev) acc (JsNum.num a)
        (JsNum.num b) t).precisionLossWarned = true ∧
    (computeApr (some prev) acc (JsNum.num a) (JsNum.num b) t).apr =
      some (JsNum.num
        ((((acc : ℚ) - (previousRaw : ℚ)) / 10 ^ 18
            / ((Int.fdiv (t - prev.timestamp) 1000 : ℤ) : ℚ))
          * (SECONDS_PER_YEAR : ℚ) * (a / b) * 100)) := by
  have hinc : previousRaw < acc := by
    have h53 : (2 : ℤ) ^ 53 - 1 = 9007199254740991 := by norm_num
    unfold maxSafeInteger at hbig
    omega
  rw [computeApr_spec prev previousRaw w acc a b t hparse hinc hb hdt]
  refine ⟨?_, rfl⟩
  simp only [decide_eq_true_eq]
  exact hbig

/-- Witness for C9 at deltaIndex 2^53, one above the safe threshold. -/
theorem claim9_witness :
    parseWeiFromNumeric prevZeroSample.accEthPerShare = some (0, false) ∧
    (1 : ℚ) ≠ 0 ∧
    0 < Int.fdiv (1000 - prevZeroSample.timestamp) 1000 ∧
    maxSafeInteger < ((9007199254740992 : ℕ) : ℤ) - ((0 : ℕ) : ℤ) ∧
    (computeApr (some prevZeroSample) 9007199254740992 (JsNum.num 2)
        (JsNum.num 1) 1000).precisionLossWarned = true ∧
    (computeApr (some prevZeroSample) 9007199254740992 (JsNum.num 2)
        (JsNum.num 1) 1000).apr =
      some (JsNum.num
        ((((9007199254740992 : ℕ) : ℚ) - ((0 : ℕ) : ℚ)) / 10 ^ 18
            / ((Int.fdiv (1000 - prevZeroSample.timestamp) 1000 : ℤ) : ℚ)
          * (SECONDS_PER_YEAR : ℚ) * ((2 : ℚ) / (1 : ℚ)) * 100)) := by
  refine ⟨by decide, by decide, by decide, by decide, ?_, ?_⟩
  · exact (claim9_precision_loss_flagged prevZeroSample 0 false
      9007199254740992 2 1 1000 (by decide) (by decide) (by decide)
      (by decide)).1
  · exact (claim9_precision_loss_flagged prevZeroSample 0 false
      9007199254740992 2 1 1000 (by decide) (by decide) (by decide)
      (by decide)).2

/-- C10: the history handler substitutes the default limit 30 when the
limit query parameter is absent or parses to 0, so getHistoricalSamples
runs with limit 30 and a caller cannot obtain an empty page via
limit=0 on a non-empty store. -/
theorem claim10_history_limit_default :
    (∀ store sd ed,
        getHistory store (some 0) sd ed = getHistoricalSamples store 30 sd ed) ∧
    (∀ store sd ed,
        getHistory store none sd ed = getHistoricalSamples store 30 sd ed) ∧
    (∀ store : List AprSampleRec, store ≠ [] →
        getHistory store (some 0) none none ≠ []) := by
  refine ⟨fun store sd ed => rfl, fun store sd ed => rfl, ?_⟩
  intro store hne
  show ((sortByTimestampDesc store).filter (fun _ => true)).take
    (Int.toNat 30) ≠ []
  rw [List.filter_true]
  apply take_ne_nil_of_ne_nil
  · decide
  · intro hnil
    apply hne
    have hlen := length_sortByTimestampDesc store
    rw [hnil] at hlen
    exact List.length_eq_zero.mp hlen.symm

/-- Witness for C10 on a one-sample store with limit 0. -/
theorem claim10_witness :
    ([prevUnitSample] ≠ ([] : List AprSampleRec)) ∧
    getHistory [prevUnitSample] (some 0) none none ≠ [] :=
  ⟨by decide, claim10_history_limit_default.2.2 [prevUnitSample]
    (by decide)⟩

end SsvApr
